import Mathlib

/-!
Shallow embedding of the isl backend of CLooG's constraint-analysis layer
(source file source/isl/constraints.c), together with theorems checking the
natural-language specification of that layer against the code.

A constraint set is an isl basic set: a collection of affine rows over
`dim` dimension variables, `nparam` parameters and `n_div` existential
local dimensions, each row carrying an explicit constant term and an
equality/inequality flag.  Machine integers of the C source are embedded
as `Int` (coefficients, which are arbitrary-precision `isl_int` in the
source) and `Nat` (the unsigned dimension counts `dim`, `nparam`, `n_div`).
Functions that can hit a fatal assertion in the C source are embedded as
`Option`-valued functions returning `none` on the assertion branch.
-/

set_option autoImplicit false

/-- One affine row of an isl basic set: the equality flag, the coefficients
of the dimension variables, of the parameters and of the existential local
dimensions, and the constant term. -/
structure ConstraintRow where
  is_eq : Bool
  dims : List Int
  params : List Int
  divs : List Int
  cst : Int
deriving Repr, DecidableEq

instance : Inhabited ConstraintRow := ⟨⟨false, [], [], [], 0⟩⟩

/-- An isl basic set (CloogConstraintSet in the isl backend): dimension
counts plus the list of affine rows. -/
structure BasicSet where
  dim : Nat
  nparam : Nat
  n_div : Nat
  rows : List ConstraintRow
deriving Repr, DecidableEq

/-- Well-formedness: every row carries exactly the announced number of
dimension, parameter and existential coefficients. -/
def BasicSet.WF (s : BasicSet) : Prop :=
  ∀ r ∈ s.rows, r.dims.length = s.dim ∧ r.params.length = s.nparam ∧
    r.divs.length = s.n_div

instance (s : BasicSet) : Decidable s.WF := by
  unfold BasicSet.WF; infer_instance

/-- A reference to one row inside a specific basic set (the payload of a
valid isl_basic_set_constraint: a set pointer plus a row position). -/
structure ConstraintRef where
  set : BasicSet
  idx : Nat
deriving Repr, DecidableEq

/-- A CloogConstraint handle: either a reference to a row of a set, or the
invalid sentinel (modelled, as the spec recommends, as an explicit
optional rather than an in-band special value). -/
def CloogConstraint := Option ConstraintRef

instance : DecidableEq CloogConstraint := by
  unfold CloogConstraint; infer_instance

/-- The row a reference designates (out-of-range references see the
all-zero default row). -/
def crow (r : ConstraintRef) : ConstraintRow :=
  r.set.rows.getD r.idx default

/-- cloog_constraint_invalid: the reserved sentinel handle. -/
def cloog_constraint_invalid : CloogConstraint := none

/-- cloog_constraint_is_valid (isl_basic_set_constraint_is_valid): a handle
is valid when it is not the sentinel and designates an existing row. -/
def cloog_constraint_is_valid (constraint : CloogConstraint) : Bool :=
  match constraint with
  | none => false
  | some r => decide (r.idx < r.set.rows.length)

/-- cloog_constraint_first (isl_basic_set_first_constraint). -/
def cloog_constraint_first (constraints : BasicSet) : CloogConstraint :=
  some ⟨constraints, 0⟩

/-- cloog_constraint_next (isl_basic_set_constraint_next). -/
def cloog_constraint_next (constraint : CloogConstraint) : CloogConstraint :=
  match constraint with
  | none => none
  | some r => some ⟨r.set, r.idx + 1⟩

/-- isl_basic_set_constraint_get_constant. -/
def isl_basic_set_constraint_get_constant (c : ConstraintRef) : Int :=
  (crow c).cst

/-- isl_basic_set_constraint_get_dim. -/
def isl_basic_set_constraint_get_dim (c : ConstraintRef) (i : Nat) : Int :=
  (crow c).dims.getD i 0

/-- isl_basic_set_constraint_get_param. -/
def isl_basic_set_constraint_get_param (c : ConstraintRef) (i : Nat) : Int :=
  (crow c).params.getD i 0

/-- isl_basic_set_constraint_get_div. -/
def isl_basic_set_constraint_get_div (c : ConstraintRef) (i : Nat) : Int :=
  (crow c).divs.getD i 0

/-- cloog_constraint_coefficient_get: variables are addressed in the
canonical order, dimension variables first (indices below `dim`), then
parameters. -/
def cloog_constraint_coefficient_get (constraint : ConstraintRef) (var : Nat) : Int :=
  if var < constraint.set.dim then
    isl_basic_set_constraint_get_dim constraint var
  else
    isl_basic_set_constraint_get_param constraint (var - constraint.set.dim)

/-- cloog_constraint_constant_get. -/
def cloog_constraint_constant_get (constraint : ConstraintRef) : Int :=
  isl_basic_set_constraint_get_constant constraint

/-- cloog_constraint_involves: true when the coefficient of variable `v`
is nonzero. -/
def cloog_constraint_involves (constraint : ConstraintRef) (v : Nat) : Bool :=
  !(decide (cloog_constraint_coefficient_get constraint v = 0))

/-- cloog_constraint_is_lower_bound: the coefficient of `v` is positive. -/
def cloog_constraint_is_lower_bound (constraint : ConstraintRef) (v : Nat) : Bool :=
  decide (0 < cloog_constraint_coefficient_get constraint v)

/-- cloog_constraint_is_upper_bound: the coefficient of `v` is negative. -/
def cloog_constraint_is_upper_bound (constraint : ConstraintRef) (v : Nat) : Bool :=
  decide (cloog_constraint_coefficient_get constraint v < 0)

/-- cloog_constraint_is_equality. -/
def cloog_constraint_is_equality (constraint : ConstraintRef) : Bool :=
  (crow constraint).is_eq

/-- cloog_constraint_set_contains_level: the C body is
`constraints->dim >= level`. -/
def cloog_constraint_set_contains_level (constraints : BasicSet) (level : Nat)
    (nb_parameters : Nat) : Bool :=
  decide (level ≤ constraints.dim)

/-- cloog_constraint_set_total_dimension: asserts that the set has no
existential local dimensions, then returns nparam + dim; the assertion
branch is embedded as `none`. -/
def cloog_constraint_set_total_dimension (constraints : BasicSet) : Option Nat :=
  if constraints.n_div = 0 then some (constraints.nparam + constraints.dim)
  else none

/-- cloog_constraint_set_n_iterators: total dimension minus the number of
parameters (a C `int` subtraction, hence `Int`-valued). -/
def cloog_constraint_set_n_iterators (constraints : BasicSet) (n_par : Int) :
    Option Int :=
  (cloog_constraint_set_total_dimension constraints).map
    (fun t => (t : Int) - n_par)

/-- cloog_constraint_copy_coefficients: writes, in canonical order, the
coefficients of all variables (dimensions then parameters) followed by the
constant into a buffer of length total_dimension + 1; embedded as the
produced buffer. -/
def cloog_constraint_copy_coefficients (constraint : ConstraintRef) :
    Option (List Int) :=
  (cloog_constraint_set_total_dimension constraint.set).map (fun dim =>
    ((List.range dim).map
      (fun i => cloog_constraint_coefficient_get constraint i)) ++
    [cloog_constraint_constant_get constraint])

/-- A snapshot of the program state the constraint layer can reach:
the live constraint sets and equality-table slot contents.  Used to state
frame properties of operations whose C body is empty. -/
structure CloogState where
  sets : List BasicSet
  slots : List (Option BasicSet)

/-- cloog_constraint_release: the C body is empty, so the embedding is the
identity on the program state. -/
def cloog_constraint_release (constraint : CloogConstraint) (st : CloogState) :
    CloogState :=
  st

/-- cloog_constraint_copy: the C body returns its argument unchanged. -/
def cloog_constraint_copy (constraint : CloogConstraint) : CloogConstraint :=
  constraint

/-- The EQTYPE_* classification tags of an equality row (pprint.h):
no equality, constant, pure item, affine expression. -/
inductive EqType where
  | NONE
  | CONSTANT
  | PUREITEM
  | EXAFFINE
deriving DecidableEq, Repr

/-- One coefficient-scanning loop of cloog_constraint_equal_type: skip
zero coefficients; at a nonzero coefficient, if it is not +1 or -1, or the
running tag is already set, the tag becomes EXAFFINE and the loop breaks;
otherwise the tag becomes PUREITEM. -/
def equal_type_scan (type : EqType) : List Int → EqType
  | [] => type
  | c :: cs =>
    if c = 0 then equal_type_scan type cs
    else if (¬ c = 1 ∧ ¬ c = -1) ∨ ¬ type = EqType.NONE then EqType.EXAFFINE
    else equal_type_scan EqType.PUREITEM cs

/-- The parameter coefficients scanned by the first loop of
cloog_constraint_equal_type. -/
def paramScanList (c : ConstraintRef) : List Int :=
  (List.range c.set.nparam).map (fun i => isl_basic_set_constraint_get_param c i)

/-- The dimension coefficients scanned by the second loop of
cloog_constraint_equal_type: all of them except position level - 1, which
the loop skips. -/
def dimScanList (c : ConstraintRef) (level : Nat) : List Int :=
  (((List.range c.set.dim).filter (fun i => decide (¬ i = level - 1))).map
    (fun i => isl_basic_set_constraint_get_dim c i))

/-- The existential-local coefficients scanned by the third loop of
cloog_constraint_equal_type. -/
def divScanList (c : ConstraintRef) : List Int :=
  (List.range c.set.n_div).map (fun i => isl_basic_set_constraint_get_div c i)

/-- All non-level coefficients of a row, in the exact order the three
loops of cloog_constraint_equal_type visit them. -/
def nonLevelCoeffs (c : ConstraintRef) (level : Nat) : List Int :=
  paramScanList c ++ dimScanList c level ++ divScanList c

/-- cloog_constraint_equal_type: classifies the equality row for the
variable at `level`.  The constant term, if nonzero, tentatively sets the
tag to CONSTANT; the three loops then scan the parameter, dimension
(skipping level - 1) and existential coefficients; a tag still NONE at the
end defaults to CONSTANT. -/
def cloog_constraint_equal_type (constraint : ConstraintRef) (level : Nat) :
    EqType :=
  let c := isl_basic_set_constraint_get_constant constraint
  let type0 := if ¬ c = 0 then EqType.CONSTANT else EqType.NONE
  let type1 := equal_type_scan type0 (paramScanList constraint)
  let type2 := equal_type_scan type1 (dimScanList constraint level)
  let type3 := equal_type_scan type2 (divScanList constraint)
  if type3 = EqType.NONE then EqType.CONSTANT else type3

/-- CloogEqualities: the equality table.  Slot i (0-based, for level i+1)
holds a classification tag and an optional private one-row set. -/
structure CloogEqualities where
  total_dim : Nat
  n : Nat
  constraints : List (Option BasicSet)
  types : List EqType
deriving DecidableEq

/-- Well-formedness of an equality table: both slot arrays have the
announced length `n`. -/
def CloogEqualities.WF (equal : CloogEqualities) : Prop :=
  equal.types.length = equal.n ∧ equal.constraints.length = equal.n

/-- cloog_equal_alloc: a table of n slots, all initialized to EQTYPE_NONE
and no stored set, with total_dim = nb_levels - 1 + nb_parameters. -/
def cloog_equal_alloc (n : Nat) (nb_levels : Nat) (nb_parameters : Nat) :
    CloogEqualities :=
  { total_dim := nb_levels - 1 + nb_parameters
    n := n
    constraints := List.replicate n none
    types := List.replicate n EqType.NONE }

/-- cloog_equal_total_dimension. -/
def cloog_equal_total_dimension (equal : CloogEqualities) : Nat :=
  equal.total_dim

/-- cloog_equal_count. -/
def cloog_equal_count (equal : CloogEqualities) : Nat :=
  equal.n

/-- cloog_equal_type: the tag stored at slot level - 1. -/
def cloog_equal_type (equal : CloogEqualities) (level : Nat) : EqType :=
  equal.types.getD (level - 1) EqType.NONE

/-- Modelled from the spec: isl_basic_set_from_constraint is an isl backend
primitive whose source is not part of this repository; per the spec it
isolates a single row into a private one-row constraint set over the same
space. -/
def isl_basic_set_from_constraint (line : ConstraintRef) : BasicSet :=
  { dim := line.set.dim
    nparam := line.set.nparam
    n_div := line.set.n_div
    rows := [crow line] }

/-- Modelled from the spec: isl_basic_set_extend is an isl backend
primitive whose source is not part of this repository; it extends a set to
the requested parameter and dimension counts, keeping its rows. -/
def isl_basic_set_extend (bset : BasicSet) (nparam : Nat) (dim : Nat)
    (extra : Nat) (n_eq : Nat) (n_ineq : Nat) : BasicSet :=
  { bset with nparam := nparam, dim := dim }

/-- cloog_equal_add: asserts that `line` is a valid constraint (the
assertion branch is embedded as `none`), stores the classification of
`line` at slot level - 1, and stores at the same slot a private one-row
set extended to the table's ambient dimension. -/
def cloog_equal_add (equal : CloogEqualities) (matrix : BasicSet) (level : Nat)
    (line : CloogConstraint) (nb_par : Nat) : Option CloogEqualities :=
  if cloog_constraint_is_valid line then
    match line with
    | some r =>
      some { equal with
        types := equal.types.set (level - 1) (cloog_constraint_equal_type r level)
        constraints := equal.constraints.set (level - 1)
          (some (isl_basic_set_extend (isl_basic_set_from_constraint r)
            r.set.nparam (equal.total_dim - r.set.nparam) 0 0 0)) }
    | none => none
  else none

/-- cloog_equal_del: resets the tag at slot level - 1 to EQTYPE_NONE and
releases the stored set (isl_basic_set_free accepts a null set, so the
operation is total even on an empty slot). -/
def cloog_equal_del (equal : CloogEqualities) (level : Nat) : CloogEqualities :=
  { equal with
    types := equal.types.set (level - 1) EqType.NONE
    constraints := equal.constraints.set (level - 1) none }

/-- Modelled from the spec: helper for isl_basic_set_has_defining_inequalities
(an isl backend primitive whose source is not part of this repository).
Rows l and u form a defining pair for the variable at 0-based position
`pos` when both are inequalities of the opposing shapes
a.i - m e + b.p + k1 >= 0 and -a.i + m e - b.p + k2 >= 0
with m > 0 and 0 <= k1 + k2 < m. -/
def is_defining_pair (bset : BasicSet) (pos : Nat) (l : Nat) (u : Nat) : Bool :=
  let rl := bset.rows.getD l default
  let ru := bset.rows.getD u default
  let m := -(ru.dims.getD pos 0)
  !ru.is_eq && !rl.is_eq && decide (0 < m) &&
  ((List.range bset.dim).all fun i =>
    decide (rl.dims.getD i 0 = -(ru.dims.getD i 0))) &&
  ((List.range bset.nparam).all fun i =>
    decide (rl.params.getD i 0 = -(ru.params.getD i 0))) &&
  ((List.range bset.n_div).all fun i =>
    decide (rl.divs.getD i 0 = -(ru.divs.getD i 0))) &&
  decide (0 ≤ ru.cst + rl.cst) && decide (ru.cst + rl.cst < m)

/-- Modelled from the spec: isl_basic_set_has_defining_inequalities is an
isl backend primitive whose source is not part of this repository; per the
spec it searches the set for a pair of opposing inequalities pinning the
variable at 0-based position `pos` to a width-one interval, returning the
row positions (lower, upper) of the first such pair, if any. -/
def isl_basic_set_has_defining_inequalities (bset : BasicSet) (pos : Nat) :
    Option (Nat × Nat) :=
  (((List.range bset.rows.length).flatMap fun u =>
      (List.range bset.rows.length).map fun l => (l, u))).find?
    fun p => !(decide (p.1 = p.2)) && is_defining_pair bset pos p.1 p.2

/-- The scan loop of cloog_constraint_set_defining_inequalities: walk every
row of the set, skip the rows identical to the lower and upper candidate,
and require that no other row involves the variable at level - 1 (the loop
returns early with the invalid result at the first such row, which is
equivalent to this conjunction over all rows). -/
def no_other_involves (bset : BasicSet) (l : Nat) (u : Nat) (level : Nat) : Bool :=
  (List.range bset.rows.length).all fun k =>
    decide (k = l) || decide (k = u) ||
    !(cloog_constraint_involves ⟨bset, k⟩ (level - 1))

/-- cloog_constraint_set_defining_inequalities: ask the backend for a
defining pair of inequalities for the variable at `level`; if one is found
but the variable occurs in any other constraint, return the invalid
result; otherwise return the (upper, lower) pair. -/
def cloog_constraint_set_defining_inequalities (bset : BasicSet) (level : Nat)
    (nb_par : Nat) : Option (ConstraintRef × ConstraintRef) :=
  match isl_basic_set_has_defining_inequalities bset (level - 1) with
  | none => none
  | some lu =>
    if no_other_involves bset lu.1 lu.2 level then
      some (⟨bset, lu.2⟩, ⟨bset, lu.1⟩)
    else none

/-! Helper lemmas about the coefficient-scanning loop. -/

theorem equal_type_scan_exaffine (l : List Int) :
    equal_type_scan EqType.EXAFFINE l = EqType.EXAFFINE := by
  induction l with
  | nil => rfl
  | cons c cs ih =>
    by_cases hc : c = 0
    · simp [equal_type_scan, hc, ih]
    · simp [equal_type_scan, hc]

theorem equal_type_scan_append (t : EqType) (xs ys : List Int) :
    equal_type_scan t (xs ++ ys) = equal_type_scan (equal_type_scan t xs) ys := by
  induction xs generalizing t with
  | nil => rfl
  | cons c cs ih =>
    by_cases hc : c = 0
    · simp [equal_type_scan, hc, ih]
    · by_cases hb : (¬ c = 1 ∧ ¬ c = -1) ∨ ¬ t = EqType.NONE
      · simp [equal_type_scan, hc, hb, equal_type_scan_exaffine]
      · simp [equal_type_scan, hc, hb, ih]

theorem equal_type_scan_zeros (t : EqType) (l : List Int)
    (h : ∀ c ∈ l, c = 0) : equal_type_scan t l = t := by
  induction l with
  | nil => rfl
  | cons c cs ih =>
    have hc : c = 0 := h c (List.mem_cons_self c cs)
    simp only [equal_type_scan, hc, if_pos rfl]
    exact ih (fun x hx => h x (List.mem_cons_of_mem c hx))

theorem equal_type_scan_nonzero_of_ne_none (t : EqType) (l : List Int)
    (ht : ¬ t = EqType.NONE) (h : ∃ c ∈ l, ¬ c = 0) :
    equal_type_scan t l = EqType.EXAFFINE := by
  induction l with
  | nil => simp at h
  | cons c cs ih =>
    by_cases hc : c = 0
    · obtain ⟨d, hd, hdz⟩ := h
      rcases List.mem_cons.mp hd with rfl | hd
      · exact absurd hc hdz
      · simp only [equal_type_scan, hc, if_pos rfl]
        exact ih ⟨d, hd, hdz⟩
    · simp [equal_type_scan, hc, ht]

theorem equal_type_scan_single (as bs : List Int) (c : Int)
    (ha : ∀ x ∈ as, x = 0) (hb : ∀ x ∈ bs, x = 0) (hc : c = 1 ∨ c = -1) :
    equal_type_scan EqType.NONE (as ++ c :: bs) = EqType.PUREITEM := by
  rw [equal_type_scan_append, equal_type_scan_zeros _ _ ha]
  rcases hc with rfl | rfl <;>
    simpa [equal_type_scan] using equal_type_scan_zeros EqType.PUREITEM bs hb

theorem equal_type_scan_nonunit (t : EqType) (as bs : List Int) (c : Int)
    (hc : ¬ c = 0) (h1 : ¬ c = 1) (h2 : ¬ c = -1) :
    equal_type_scan t (as ++ c :: bs) = EqType.EXAFFINE := by
  rw [equal_type_scan_append]
  have hcond : (¬ c = 1 ∧ ¬ c = -1) ∨ ¬ (equal_type_scan t as) = EqType.NONE :=
    Or.inl ⟨h1, h2⟩
  simp [equal_type_scan, hc, hcond]

theorem equal_type_scan_two (t : EqType) (as bs : List Int) (c : Int)
    (hc : ¬ c = 0) (h : ∃ d ∈ bs, ¬ d = 0) :
    equal_type_scan t (as ++ c :: bs) = EqType.EXAFFINE := by
  rw [equal_type_scan_append]
  by_cases hcond : (¬ c = 1 ∧ ¬ c = -1) ∨ ¬ (equal_type_scan t as) = EqType.NONE
  · simp [equal_type_scan, hc, hcond]
  · simp only [equal_type_scan, hc, if_neg hc, if_neg hcond]
    exact equal_type_scan_nonzero_of_ne_none _ _ (by decide) h

/-- The classification equals the single scan of all non-level
coefficients in loop order, starting from the tentative constant tag. -/
theorem equal_type_eq_scan (r : ConstraintRef) (level : Nat) :
    cloog_constraint_equal_type r level =
      (if equal_type_scan
          (if ¬ isl_basic_set_constraint_get_constant r = 0 then EqType.CONSTANT
           else EqType.NONE)
          (nonLevelCoeffs r level) = EqType.NONE then EqType.CONSTANT
       else equal_type_scan
          (if ¬ isl_basic_set_constraint_get_constant r = 0 then EqType.CONSTANT
           else EqType.NONE)
          (nonLevelCoeffs r level)) := by
  simp [cloog_constraint_equal_type, nonLevelCoeffs, equal_type_scan_append]


/-! Concrete inputs used by the witness theorems below. -/

/-- A set with no existential local dimensions, used as a witness input. -/
def wset_nodiv : BasicSet := ⟨2, 1, 0, [⟨true, [2, -1], [3], [], 5⟩]⟩

/-- A set with one existential local dimension, used as a witness input. -/
def wset_div : BasicSet := ⟨2, 1, 1, [⟨true, [2, -1], [3], [0], 5⟩]⟩

/-! The claims. -/

/-- C6: for every constraint set and every positive level,
cloog_constraint_set_contains_level returns true exactly when the set's
dimension-variable count is at least the level. -/
theorem contains_level_iff (set : BasicSet) (level : Nat) (nb_parameters : Nat)
    (h : 0 < level) :
    cloog_constraint_set_contains_level set level nb_parameters = true ↔
      level ≤ set.dim := by
  simp [cloog_constraint_set_contains_level]

/-- Witness for C6 at a concrete input. -/
theorem contains_level_iff_w :
    0 < 2 ∧ (cloog_constraint_set_contains_level wset_nodiv 2 1 = true ↔
      2 ≤ wset_nodiv.dim) :=
  ⟨by decide, contains_level_iff wset_nodiv 2 1 (by decide)⟩

/-- C9: cloog_constraint_set_total_dimension returns d + p on every set
with no existential local dimensions, and takes the fatal-assertion branch
(embedded as none) on every set with a nonzero count of existential local
dimensions. -/
theorem total_dimension_spec (set : BasicSet) :
    (set.n_div = 0 →
      cloog_constraint_set_total_dimension set = some (set.nparam + set.dim))
  ∧ (¬ set.n_div = 0 → cloog_constraint_set_total_dimension set = none) := by
  constructor
  · intro h; simp [cloog_constraint_set_total_dimension, h]
  · intro h; simp [cloog_constraint_set_total_dimension, h]

/-- Witness for C9 at concrete inputs on both branches. -/
theorem total_dimension_spec_w :
    cloog_constraint_set_total_dimension wset_nodiv = some 3 ∧
    cloog_constraint_set_total_dimension wset_div = none :=
  ⟨(total_dimension_spec wset_nodiv).1 (by decide),
   (total_dimension_spec wset_div).2 (by decide)⟩

/-- C7: on every set with no existential local dimensions and with the
parameter count matching the set, n_iterators + nb_params equals the total
dimension. -/
theorem n_iterators_plus_params (set : BasicSet) (n_par : Int)
    (hdiv : set.n_div = 0) (hp : n_par = (set.nparam : Int)) :
    ∃ t : Nat, cloog_constraint_set_total_dimension set = some t ∧
      cloog_constraint_set_n_iterators set n_par = some ((t : Int) - n_par) ∧
      ((t : Int) - n_par) + n_par = (t : Int) := by
  refine ⟨set.nparam + set.dim, ?_, ?_, ?_⟩
  · simp [cloog_constraint_set_total_dimension, hdiv]
  · simp [cloog_constraint_set_n_iterators, cloog_constraint_set_total_dimension,
      hdiv]
  · ring

/-- Witness for C7 at a concrete input. -/
theorem n_iterators_plus_params_w :
    ∃ t : Nat, cloog_constraint_set_total_dimension wset_nodiv = some t ∧
      cloog_constraint_set_n_iterators wset_nodiv 1 = some ((t : Int) - 1) ∧
      ((t : Int) - 1) + 1 = (t : Int) :=
  n_iterators_plus_params wset_nodiv 1 (by decide) (by decide)

/-- C10: constraint handles are non-owning: cloog_constraint_copy is the
identity on handles and cloog_constraint_release is the identity on the
program state, however many times it is applied. -/
theorem constraint_handles_non_owning (c : CloogConstraint) (st : CloogState)
    (k : Nat) :
    cloog_constraint_copy c = c ∧ cloog_constraint_release c st = st ∧
    (cloog_constraint_release c)^[k] st = st :=
  ⟨rfl, rfl, Function.iterate_fixed rfl k⟩

/-- A list whose filtered part has at least two elements splits around a
kept element with another kept element after it. -/
theorem exists_split_of_two_filter (p : Int → Bool) (l : List Int)
    (h : 2 ≤ (l.filter p).length) :
    ∃ as c bs, l = as ++ c :: bs ∧ p c = true ∧ ∃ d ∈ bs, p d = true := by
  induction l with
  | nil => simp at h
  | cons a t ih =>
    by_cases hp : p a
    · have hlen : 0 < (t.filter p).length := by
        have : (List.filter p (a :: t)).length = (t.filter p).length + 1 := by
          simp [List.filter_cons, hp]
        omega
      obtain ⟨d, hd⟩ := List.exists_mem_of_length_pos hlen
      exact ⟨[], a, t, rfl, hp, d, (List.mem_filter.mp hd).1,
        (List.mem_filter.mp hd).2⟩
    · have h' : 2 ≤ (t.filter p).length := by
        simpa [List.filter_cons, hp] using h
      obtain ⟨as, c, bs, hdec, hpc, d, hd, hpd⟩ := ih h'
      exact ⟨a :: as, c, bs, by rw [hdec]; rfl, hpc, d, hd, hpd⟩

/-- C2: classification of an equality row for a level: a row whose
non-level coefficients are all zero and whose constant is nonzero is
CONSTANT; a row with zero constant and exactly one nonzero non-level
coefficient equal to +1 or -1 is PUREITEM; a row with two or more nonzero
non-level coefficients, or with any nonzero non-level coefficient other
than +1 and -1, is EXAFFINE. -/
theorem equal_type_classification (r : ConstraintRef) (level : Nat) :
    ((¬ isl_basic_set_constraint_get_constant r = 0 ∧
      ∀ x ∈ nonLevelCoeffs r level, x = 0) →
      cloog_constraint_equal_type r level = EqType.CONSTANT)
  ∧ ((isl_basic_set_constraint_get_constant r = 0 ∧
      ∃ as c bs, nonLevelCoeffs r level = as ++ c :: bs ∧ (c = 1 ∨ c = -1) ∧
        (∀ x ∈ as, x = 0) ∧ (∀ x ∈ bs, x = 0)) →
      cloog_constraint_equal_type r level = EqType.PUREITEM)
  ∧ ((2 ≤ ((nonLevelCoeffs r level).filter (fun x => decide (¬ x = 0))).length ∨
      (∃ c ∈ nonLevelCoeffs r level, ¬ c = 0 ∧ ¬ c = 1 ∧ ¬ c = -1)) →
      cloog_constraint_equal_type r level = EqType.EXAFFINE) := by
  have hsc := equal_type_eq_scan r level
  refine ⟨?_, ?_, ?_⟩
  · rintro ⟨hcst, hz⟩
    rw [hsc, if_pos hcst, equal_type_scan_zeros _ _ hz]
    decide
  · rintro ⟨hcst, as, c, bs, hdec, hc, ha, hb⟩
    have ht0 : (if ¬ isl_basic_set_constraint_get_constant r = 0 then
        EqType.CONSTANT else EqType.NONE) = EqType.NONE := by simp [hcst]
    rw [hsc, ht0, hdec, equal_type_scan_single as bs c ha hb hc]
    decide
  · intro h
    have hex : ∀ t0 : EqType,
        equal_type_scan t0 (nonLevelCoeffs r level) = EqType.EXAFFINE := by
      intro t0
      rcases h with h2 | ⟨c, hmem, hc0, hc1, hcm⟩
      · obtain ⟨as, c, bs, hdec, hpc, d, hd, hpd⟩ :=
          exists_split_of_two_filter _ _ h2
        rw [hdec]
        exact equal_type_scan_two t0 as bs c (by simpa using hpc)
          ⟨d, hd, by simpa using hpd⟩
      · obtain ⟨s, t, hdec⟩ := List.append_of_mem hmem
        rw [hdec]
        exact equal_type_scan_nonunit t0 s t c hc0 hc1 hcm
    rw [hsc, hex]
    decide

/-- The row i + 13 = 0 (the equality i = -13) in a one-dimensional set. -/
def wset_cst : BasicSet := ⟨1, 0, 0, [⟨true, [1], [], [], 13⟩]⟩

/-- The row j + M = 0 (the equality j = -M) over dimensions i, j and
parameter M. -/
def wset_pure : BasicSet := ⟨2, 1, 0, [⟨true, [0, 1], [1], [], 0⟩]⟩

/-- The row j - 2M = 0 (the equality j = 2M) over dimensions i, j and
parameter M. -/
def wset_aff : BasicSet := ⟨2, 1, 0, [⟨true, [0, 1], [-2], [], 0⟩]⟩

/-- Witness for C2: i = -13 is CONSTANT, j = -M is PUREITEM and j = 2M is
EXAFFINE. -/
theorem equal_type_classification_w :
    cloog_constraint_equal_type ⟨wset_cst, 0⟩ 1 = EqType.CONSTANT ∧
    cloog_constraint_equal_type ⟨wset_pure, 0⟩ 2 = EqType.PUREITEM ∧
    cloog_constraint_equal_type ⟨wset_aff, 0⟩ 2 = EqType.EXAFFINE :=
  ⟨(equal_type_classification ⟨wset_cst, 0⟩ 1).1 ⟨by decide, by decide⟩,
   (equal_type_classification ⟨wset_pure, 0⟩ 2).2.1
     ⟨by decide, [], 1, [0], by decide, Or.inl rfl, by decide, by decide⟩,
   (equal_type_classification ⟨wset_aff, 0⟩ 2).2.2
     (Or.inr ⟨-2, by decide, by decide, by decide, by decide⟩)⟩

/-- The row i - j - 1 = 0 (the equality i = j + 1) over dimensions i, j. -/
def wset_c3 : BasicSet := ⟨2, 0, 0, [⟨true, [1, -1], [], [], -1⟩]⟩

/-- C3 counterexample: the row i = j + 1 has a nonzero constant and exactly
one nonzero non-level coefficient, equal to -1, yet its classification is
EXAFFINE, not PUREITEM as the claim states: the tentative CONSTANT tag set
by the constant term does count as already-set in the scanning loops. -/
theorem equal_type_constant_counts_cex :
    ¬ isl_basic_set_constraint_get_constant ⟨wset_c3, 0⟩ = 0 ∧
    nonLevelCoeffs ⟨wset_c3, 0⟩ 1 = [] ++ (-1 : Int) :: [] ∧
    ¬ cloog_constraint_equal_type ⟨wset_c3, 0⟩ 1 = EqType.PUREITEM ∧
    cloog_constraint_equal_type ⟨wset_c3, 0⟩ 1 = EqType.EXAFFINE := by
  decide

/-- C3 amended: for every equality row whose constant term is nonzero and
which has exactly one nonzero non-level coefficient, that coefficient
being +1 or -1, classify returns EXAFFINE (the tentative CONSTANT tag from
step 2 counts as "already set" for the escalation test of step 3). -/
theorem equal_type_constant_counts (r : ConstraintRef) (level : Nat)
    (as bs : List Int) (c : Int)
    (hcst : ¬ isl_basic_set_constraint_get_constant r = 0)
    (hdec : nonLevelCoeffs r level = as ++ c :: bs)
    (hc : c = 1 ∨ c = -1)
    (ha : ∀ x ∈ as, x = 0) (hb : ∀ x ∈ bs, x = 0) :
    cloog_constraint_equal_type r level = EqType.EXAFFINE := by
  have hc0 : ¬ c = 0 := by rcases hc with rfl | rfl <;> decide
  rw [equal_type_eq_scan, if_pos hcst, hdec,
    equal_type_scan_nonzero_of_ne_none EqType.CONSTANT _ (by decide)
      ⟨c, List.mem_append_right _ (List.mem_cons_self c bs), hc0⟩]
  decide

/-- Witness for C3 amended, at the counterexample row i = j + 1. -/
theorem equal_type_constant_counts_w :
    cloog_constraint_equal_type ⟨wset_c3, 0⟩ 1 = EqType.EXAFFINE :=
  equal_type_constant_counts ⟨wset_c3, 0⟩ 1 [] [] (-1) (by decide) (by decide)
    (Or.inr rfl) (by decide) (by decide)

/-- C4: EqualityTable round trip: on every well-formed table, in-range
level and valid constraint, cloog_equal_add succeeds and stores exactly
the tag computed by cloog_constraint_equal_type, which cloog_equal_type
then returns; and cloog_equal_type after cloog_equal_del returns
EQTYPE_NONE. -/
theorem equal_add_type_round_trip (equal : CloogEqualities) (matrix : BasicSet)
    (level : Nat) (r : ConstraintRef) (nb_par : Nat)
    (hWF : equal.WF) (h1 : 1 ≤ level) (h2 : level ≤ equal.n)
    (hv : cloog_constraint_is_valid (some r) = true) :
    (∃ e', cloog_equal_add equal matrix level (some r) nb_par = some e' ∧
      cloog_equal_type e' level = cloog_constraint_equal_type r level)
  ∧ cloog_equal_type (cloog_equal_del equal level) level = EqType.NONE := by
  have hlen : equal.types.length = equal.n := hWF.1
  have hlt : level - 1 < equal.types.length := by omega
  constructor
  · refine ⟨{ equal with
        types := equal.types.set (level - 1) (cloog_constraint_equal_type r level)
        constraints := equal.constraints.set (level - 1)
          (some (isl_basic_set_extend (isl_basic_set_from_constraint r)
            r.set.nparam (equal.total_dim - r.set.nparam) 0 0 0)) }, ?_, ?_⟩
    · simp [cloog_equal_add, hv]
    · simp only [cloog_equal_type]
      rw [List.getD_eq_getElem _ _ (by simpa using hlt)]
      exact List.getElem_set_self _
  · simp only [cloog_equal_type, cloog_equal_del]
    rw [List.getD_eq_getElem _ _ (by simpa using hlt)]
    exact List.getElem_set_self _

/-- Witness for C4 at a concrete table, level and constraint. -/
theorem equal_add_type_round_trip_w :
    (∃ e', cloog_equal_add (cloog_equal_alloc 3 3 1) wset_pure 2
        (some ⟨wset_pure, 0⟩) 1 = some e' ∧
      cloog_equal_type e' 2 = cloog_constraint_equal_type ⟨wset_pure, 0⟩ 2)
  ∧ cloog_equal_type (cloog_equal_del (cloog_equal_alloc 3 3 1) 2) 2 =
      EqType.NONE :=
  equal_add_type_round_trip (cloog_equal_alloc 3 3 1) wset_pure 2
    ⟨wset_pure, 0⟩ 1 (by exact ⟨rfl, rfl⟩) (by decide) (by decide) (by decide)

/-- C5: cloog_equal_del on an already-empty slot is total (no abort: the
underlying isl_basic_set_free accepts a released, null set) and leaves the
slot with tag NONE and no stored set, and applying it twice at a level
yields the same table as applying it once. -/
theorem equal_del_idempotent (equal : CloogEqualities) (level : Nat)
    (h : equal.types.getD (level - 1) EqType.NONE = EqType.NONE ∧
         equal.constraints.getD (level - 1) none = none) :
    ((cloog_equal_del equal level).types.getD (level - 1) EqType.NONE =
        EqType.NONE ∧
     (cloog_equal_del equal level).constraints.getD (level - 1) none = none)
  ∧ cloog_equal_del (cloog_equal_del equal level) level =
      cloog_equal_del equal level := by
  refine ⟨⟨?_, ?_⟩, ?_⟩
  · by_cases hl : level - 1 < equal.types.length
    · simp only [cloog_equal_del]
      rw [List.getD_eq_getElem _ _ (by simpa using hl)]
      exact List.getElem_set_self _
    · simp only [cloog_equal_del]
      exact List.getD_eq_default _ _ (by simpa using Nat.le_of_not_lt hl)
  · by_cases hl : level - 1 < equal.constraints.length
    · simp only [cloog_equal_del]
      rw [List.getD_eq_getElem _ _ (by simpa using hl)]
      exact List.getElem_set_self _
    · simp only [cloog_equal_del]
      exact List.getD_eq_default _ _ (by simpa using Nat.le_of_not_lt hl)
  · simp [cloog_equal_del, List.set_set]

/-- Witness for C5 at a freshly allocated (hence empty) table. -/
theorem equal_del_idempotent_w :
    ((cloog_equal_del (cloog_equal_alloc 2 2 1) 1).types.getD 0 EqType.NONE =
        EqType.NONE ∧
     (cloog_equal_del (cloog_equal_alloc 2 2 1) 1).constraints.getD 0 none =
        none)
  ∧ cloog_equal_del (cloog_equal_del (cloog_equal_alloc 2 2 1) 1) 1 =
      cloog_equal_del (cloog_equal_alloc 2 2 1) 1 :=
  equal_del_idempotent (cloog_equal_alloc 2 2 1) 1 ⟨by decide, by decide⟩

/-- Reading every position of a list with getD reproduces the list. -/
theorem map_getD_range (l : List Int) :
    (List.range l.length).map (fun i => l.getD i 0) = l := by
  induction l with
  | nil => rfl
  | cons a t ih =>
    rw [List.length_cons, List.range_succ_eq_map, List.map_cons, List.map_map]
    exact congrArg (List.cons a) ih

/-- C8: cloog_constraint_copy_coefficients produces, in order, the d
dimension coefficients, the p parameter coefficients, and the constant
term of the referenced row. -/
theorem copy_coefficients_canonical_order (r : ConstraintRef)
    (hidx : r.idx < r.set.rows.length) (hWF : r.set.WF)
    (hdiv : r.set.n_div = 0) :
    cloog_constraint_copy_coefficients r =
      some ((crow r).dims ++ ((crow r).params ++ [(crow r).cst])) := by
  have hmem : crow r ∈ r.set.rows := by
    rw [crow, List.getD_eq_getElem _ _ hidx]
    exact List.getElem_mem _
  obtain ⟨hd, hp, hv⟩ := hWF _ hmem
  have hsplit : (List.range (r.set.nparam + r.set.dim)).map
      (fun i => cloog_constraint_coefficient_get r i) =
      (crow r).dims ++ (crow r).params := by
    rw [Nat.add_comm, List.range_add, List.map_append, List.map_map]
    congr 1
    · have heach : ∀ i ∈ List.range r.set.dim,
          cloog_constraint_coefficient_get r i = (crow r).dims.getD i 0 := by
        intro i hi
        rw [List.mem_range] at hi
        simp [cloog_constraint_coefficient_get,
          isl_basic_set_constraint_get_dim, hi]
      rw [List.map_congr_left heach, ← hd]
      exact map_getD_range _
    · have heach : ∀ i ∈ List.range r.set.nparam,
          ((fun i => cloog_constraint_coefficient_get r i) ∘
            (fun x => r.set.dim + x)) i = (crow r).params.getD i 0 := by
        intro i hi
        simp [Function.comp, cloog_constraint_coefficient_get,
          isl_basic_set_constraint_get_param, Nat.add_sub_cancel_left]
      rw [List.map_congr_left heach, ← hp]
      exact map_getD_range _
  unfold cloog_constraint_copy_coefficients cloog_constraint_set_total_dimension
  rw [if_pos hdiv, Option.map_some', hsplit, List.append_assoc]
  rfl

/-- Witness for C8: for d = 2, p = 1 and the row 2x - y + 3M + 5 = 0 the
buffer is [2, -1, 3, 5]. -/
theorem copy_coefficients_canonical_order_w :
    cloog_constraint_copy_coefficients ⟨wset_nodiv, 0⟩ =
      some [2, -1, 3, 5] := by
  rw [copy_coefficients_canonical_order ⟨wset_nodiv, 0⟩ (by decide) (by decide)
    (by decide)]
  decide

/-- C1: a valid pair is returned by
cloog_constraint_set_defining_inequalities only if no row of the set other
than the pair itself involves the dimension at the level; and whenever the
backend does find a candidate pair but a third row involves that
dimension, the function returns the invalid result even though the pair
test succeeded. -/
theorem defining_inequalities_conservative (bset : BasicSet) (level : Nat)
    (nb_par : Nat) :
    (∀ u l : ConstraintRef,
      cloog_constraint_set_defining_inequalities bset level nb_par =
        some (u, l) →
      ∀ k, k < bset.rows.length → ¬ k = u.idx → ¬ k = l.idx →
        cloog_constraint_involves ⟨bset, k⟩ (level - 1) = false)
  ∧ (∀ li ui : Nat,
      isl_basic_set_has_defining_inequalities bset (level - 1) =
        some (li, ui) →
      ∀ k, k < bset.rows.length → ¬ k = li → ¬ k = ui →
        cloog_constraint_involves ⟨bset, k⟩ (level - 1) = true →
        cloog_constraint_set_defining_inequalities bset level nb_par = none) := by
  constructor
  · intro u l hres k hk hku hkl
    unfold cloog_constraint_set_defining_inequalities at hres
    split at hres
    · exact Option.noConfusion hres
    · rename_i lu hhas
      split at hres
      · rename_i hno
        have hpair := Option.some.inj hres
        have hu : (⟨bset, lu.2⟩ : ConstraintRef) = u := congrArg Prod.fst hpair
        have hl : (⟨bset, lu.1⟩ : ConstraintRef) = l := congrArg Prod.snd hpair
        have hku' : ¬ k = lu.2 := by rw [← hu] at hku; simpa using hku
        have hkl' : ¬ k = lu.1 := by rw [← hl] at hkl; simpa using hkl
        rw [no_other_involves, List.all_eq_true] at hno
        have hall := hno k (List.mem_range.mpr hk)
        rw [decide_eq_false hkl', decide_eq_false hku'] at hall
        simp only [Bool.false_or] at hall
        cases hb : cloog_constraint_involves ⟨bset, k⟩ (level - 1) with
        | false => rfl
        | true => rw [hb] at hall; simp at hall
      · exact Option.noConfusion hres
  · intro li ui hhas k hk hkl hku hinv
    have hno : ¬ no_other_involves bset li ui level = true := by
      rw [no_other_involves, List.all_eq_true]
      intro hall
      have h := hall k (List.mem_range.mpr hk)
      rw [decide_eq_false hkl, decide_eq_false hku] at h
      simp only [Bool.false_or] at h
      rw [hinv] at h
      simp at h
    unfold cloog_constraint_set_defining_inequalities
    simp only [hhas]
    rw [if_neg hno]

/-- Three inequalities over dimensions e and x: 3e >= 0 and 1 - 3e >= 0
form a defining pair for e (m = 3, k1 + k2 = 1), while e + x - 5 >= 0 is a
third row involving e. -/
def wset_c1 : BasicSet := ⟨2, 0, 0,
  [⟨false, [3, 0], [], [], 0⟩, ⟨false, [-3, 0], [], [], 1⟩,
   ⟨false, [1, 1], [], [], -5⟩]⟩

/-- Witness for C1: on wset_c1 the backend finds the pair (rows 0 and 1),
the third row involves the dimension of level 1, and the function
declines with the invalid result. -/
theorem defining_inequalities_conservative_w :
    cloog_constraint_set_defining_inequalities wset_c1 1 0 = none :=
  (defining_inequalities_conservative wset_c1 1 0).2 0 1 (by decide) 2
    (by decide) (by decide) (by decide) (by decide)
